import Mathlib

/-!
Verification of the tile-grid computation and tile-summary rendering of
`wsi/tile.py` (whole-slide-image preprocessing).

The Python module is embedded shallowly:

* a NumPy image is modelled by its shape `(rows, cols, channels)`; the tiling
  functions only inspect the shape, and the pixel-dependent external
  collaborator `filter.tissue_percent` is modelled as a function from the
  tile bounds to an exact rational percentage;
* `math.ceil(rows / row_tile_size)` is modelled as the exact ceiling of the
  rational `rows / row_tile_size`, written with the executable `mkRat` and
  `Rat.ceil` so that concrete instances evaluate by `decide`;
* `display_tile_summary` is modelled as a function producing the allocated
  canvas shape and the ordered list of PIL draw calls (rectangles and text);
  the NumPy slice assignment `summary_img[0:rows, 0:cols] = np_img` raises a
  broadcast error when the source image exceeds the canvas, which is modelled
  by returning `Except.error`; the on-screen display and the per-tile
  diagnostic `print` are side effects outside the model.
-/

/-- An RGB color triple, as used for the PIL drawing calls. -/
abbrev Color := ℕ × ℕ × ℕ

/-- The shape of a NumPy image array: `rows, cols, _ = np_img.shape`.
Tiling depends only on the shape. -/
structure NpImg where
  rows : ℕ
  cols : ℕ
  channels : ℕ
deriving DecidableEq, Repr

/-- A tile-coordinate tuple `(start_r, end_r, start_c, end_c)` as produced by
`get_tile_indices`: half-open row range `[start_r, end_r)` and column range
`[start_c, end_c)`. -/
structure TileIdx where
  start_r : ℕ
  end_r : ℕ
  start_c : ℕ
  end_c : ℕ
deriving DecidableEq, Repr

/-- Module constant `ROW_TILE_SIZE = 128` of `wsi/tile.py`. -/
def ROW_TILE_SIZE : ℕ := 128

/-- Module constant `COL_TILE_SIZE = 128` of `wsi/tile.py`. -/
def COL_TILE_SIZE : ℕ := 128

/-- Module constant `TISSUE_THRESHOLD_PERCENT = 50` of `wsi/tile.py`,
compared against the (real-valued) tissue percentage. -/
def TISSUE_THRESHOLD_PERCENT : ℚ := 50

/-- Model of Python's `math.ceil(x / t)` for natural `x`, `t`: the ceiling of
the exact rational quotient, as a natural number.  Written via `mkRat` and
`Rat.ceil` (rather than `⌈·⌉₊`) so that it evaluates by kernel reduction. -/
def ceil_div (x t : ℕ) : ℕ := (mkRat x t).ceil.toNat

/-- Embedding of `get_num_tiles(np_img, row_tile_size, col_tile_size)`:
`rows, cols, _ = np_img.shape`;
`num_row_tiles = math.ceil(rows / row_tile_size)`;
`num_col_tiles = math.ceil(cols / col_tile_size)`. -/
def get_num_tiles (np_img : NpImg) (row_tile_size col_tile_size : ℕ) : ℕ × ℕ :=
  (ceil_div np_img.rows row_tile_size, ceil_div np_img.cols col_tile_size)

/-- Embedding of `get_tile_indices(np_img, row_tile_size, col_tile_size)`:
the row-major list of `(start_r, end_r, start_c, end_c)` tuples built by the
two nested `for` loops over `range(0, num_row_tiles)` and
`range(0, num_col_tiles)`. -/
def get_tile_indices (np_img : NpImg) (row_tile_size col_tile_size : ℕ) : List TileIdx :=
  let rows := np_img.rows
  let cols := np_img.cols
  let num_row_tiles := (get_num_tiles np_img row_tile_size col_tile_size).1
  let num_col_tiles := (get_num_tiles np_img row_tile_size col_tile_size).2
  (List.range num_row_tiles).flatMap fun r =>
    let start_r := r * row_tile_size
    let end_r := if r < num_row_tiles - 1 then (r + 1) * row_tile_size else rows
    (List.range num_col_tiles).map fun c =>
      let start_c := c * col_tile_size
      let end_c := if c < num_col_tiles - 1 then (c + 1) * col_tile_size else cols
      ⟨start_r, end_r, start_c, end_c⟩

/-- The tile that the loop body of `get_tile_indices` appends for row band `r`
and column band `c` (same expressions as in `get_tile_indices`; used to state
lemmas about individual elements). -/
def tileAt (np_img : NpImg) (row_tile_size col_tile_size : ℕ) (r c : ℕ) : TileIdx :=
  let num_row_tiles := (get_num_tiles np_img row_tile_size col_tile_size).1
  let num_col_tiles := (get_num_tiles np_img row_tile_size col_tile_size).2
  { start_r := r * row_tile_size
    end_r := if r < num_row_tiles - 1 then (r + 1) * row_tile_size else np_img.rows
    start_c := c * col_tile_size
    end_c := if c < num_col_tiles - 1 then (c + 1) * col_tile_size else np_img.cols }

/-- The three-way classification performed by the `if/elif/else` chain of
`display_tile_summary` on a tile's tissue percentage. -/
inductive Bucket where
  | aboveThresh : Bucket
  | belowThresh : Bucket
  | noTissue : Bucket
deriving DecidableEq, Repr

/-- The branch of the `if/elif/else` chain of `display_tile_summary` that a
tissue percentage falls into:
`if (tissue_percentage >= TISSUE_THRESHOLD_PERCENT): ...`
`elif (tissue_percentage > 0) and (tissue_percentage < TISSUE_THRESHOLD_PERCENT): ...`
`else: ...`. -/
def classifyTile (tissue_percentage : ℚ) : Bucket :=
  if tissue_percentage ≥ TISSUE_THRESHOLD_PERCENT then Bucket.aboveThresh
  else if tissue_percentage > 0 ∧ tissue_percentage < TISSUE_THRESHOLD_PERCENT then
    Bucket.belowThresh
  else Bucket.noTissue

/-- The rectangle-outline color drawn in each branch: `thresh_color` for the
first branch, `below_thresh_color` for the `elif`, `no_tissue_color` for the
`else`. -/
def bucketColor (thresh_color below_thresh_color no_tissue_color : Color) :
    Bucket → Color
  | Bucket.aboveThresh => thresh_color
  | Bucket.belowThresh => below_thresh_color
  | Bucket.noTissue => no_tissue_color

/-- Model of the Python format specifier `"%4.2f" % p` on an exact rational:
round to 2 decimal digits (half-up, the exact-arithmetic reading of float
formatting), print `<int>.<2 digits>`, and left-pad with spaces to a minimum
width of 4 characters.  The scaling `p * 100 + 1/2` is written as the single
rational `(200 * num + den) / (2 * den)` over the reduced representation
`p = num / den` — the same number — so that concrete labels evaluate by
kernel reduction. -/
def pythonFormat42 (p : ℚ) : String :=
  let scaled : ℤ := (mkRat (200 * p.num + p.den) (2 * p.den)).floor
  let mag : ℕ := scaled.natAbs
  let intStr : String := (if scaled < 0 then "-" else "") ++ toString (mag / 100)
  let fracStr : String :=
    if mag % 100 < 10 then "0" ++ toString (mag % 100) else toString (mag % 100)
  let s := intStr ++ "." ++ fracStr
  if s.length < 4 then String.mk (List.replicate (4 - s.length) ' ') ++ s else s

/-- One PIL drawing call issued by `display_tile_summary`: either
`draw.rectangle([xy0, xy1], outline=color)` or
`draw.text(pos, label, color, font=font)`.  Rectangle corners are integers
because the inner rectangle corners `(c_s + 1, r_s + 1), (c_e - 2, r_e - 2)`
can be negative for degenerate tiles. -/
inductive DrawOp where
  | rect (xy0 xy1 : ℤ × ℤ) (outline : Color) : DrawOp
  | text (pos : ℕ × ℕ) (label : String) (color : Color) : DrawOp
deriving DecidableEq, Repr

/-- The drawing calls issued by one iteration of the tile loop of
`display_tile_summary`, for the tile `t = (r_s, r_e, c_s, c_e)` with 1-based
sequence number `count` and measured `tissue_percentage`: two nested
rectangles in the branch's outline color, then the two-line text label
`"#%d\n%4.2f%%" % (count, tissue_percentage)` at `(c_s + 2, r_s + 2)`. -/
def tileOps (thresh_color below_thresh_color no_tissue_color text_color : Color)
    (count : ℕ) (t : TileIdx) (tissue_percentage : ℚ) : List DrawOp :=
  let outline :=
    bucketColor thresh_color below_thresh_color no_tissue_color
      (classifyTile tissue_percentage)
  [ DrawOp.rect ((t.start_c : ℤ), (t.start_r : ℤ))
      ((t.end_c : ℤ) - 1, (t.end_r : ℤ) - 1) outline,
    DrawOp.rect ((t.start_c : ℤ) + 1, (t.start_r : ℤ) + 1)
      ((t.end_c : ℤ) - 2, (t.end_r : ℤ) - 2) outline,
    DrawOp.text (t.start_c + 2, t.start_r + 2)
      ("#" ++ toString count ++ "\n" ++ pythonFormat42 tissue_percentage ++ "%")
      text_color ]

/-- The `for t in tile_indices` loop of `display_tile_summary`, carrying the
running counter (`count = 0` before the loop, `count += 1` at the top of each
iteration) and concatenating the drawing calls of each iteration in order. -/
def summaryTileLoop (thresh_color below_thresh_color no_tissue_color text_color : Color)
    (tissue_percent : TileIdx → ℚ) (count : ℕ) : List TileIdx → List DrawOp
  | [] => []
  | t :: rest =>
      tileOps thresh_color below_thresh_color no_tissue_color text_color
        (count + 1) t (tissue_percent t) ++
      summaryTileLoop thresh_color below_thresh_color no_tissue_color text_color
        tissue_percent (count + 1) rest

/-- The shape of the canvas allocated by `display_tile_summary`:
`np.zeros([ROW_TILE_SIZE * num_row_tiles, COL_TILE_SIZE * num_col_tiles, np_img.shape[2]], ...)`.
Note that the source multiplies the module constants `ROW_TILE_SIZE` and
`COL_TILE_SIZE`, not the `row_tile_size` / `col_tile_size` parameters, by the
tile counts derived from the parameters. -/
def summary_canvas_shape (np_img : NpImg) (row_tile_size col_tile_size : ℕ) : ℕ × ℕ × ℕ :=
  let num_row_tiles := (get_num_tiles np_img row_tile_size col_tile_size).1
  let num_col_tiles := (get_num_tiles np_img row_tile_size col_tile_size).2
  (ROW_TILE_SIZE * num_row_tiles, COL_TILE_SIZE * num_col_tiles, np_img.channels)

/-- The canvas shape and ordered drawing calls produced by a completed run of
`display_tile_summary`. -/
structure SummaryOut where
  canvas : ℕ × ℕ × ℕ
  ops : List DrawOp
deriving DecidableEq, Repr

/-- Embedding of `display_tile_summary`: allocate the canvas
(`summary_canvas_shape`), copy the source image to the origin
(`summary_img[0:np_img.shape[0], 0:np_img.shape[1]] = np_img`, a NumPy
broadcast error — modelled as `Except.error` — when the image exceeds the
canvas in either dimension), then run the tile loop collecting the drawing
calls.  The gray fill, the diagnostic `print` per tile, the font loading and
the final `summary.show()` are side effects not reflected in the result. -/
def display_tile_summary (np_img : NpImg) (tile_indices : List TileIdx)
    (row_tile_size col_tile_size : ℕ) (tissue_percent : TileIdx → ℚ)
    (thresh_color below_thresh_color no_tissue_color text_color : Color) :
    Except String SummaryOut :=
  let summary_shape := summary_canvas_shape np_img row_tile_size col_tile_size
  if np_img.rows ≤ summary_shape.1 ∧ np_img.cols ≤ summary_shape.2.1 then
    Except.ok
      { canvas := summary_shape
        ops := summaryTileLoop thresh_color below_thresh_color no_tissue_color
          text_color tissue_percent 0 tile_indices }
  else
    Except.error ("could not broadcast input array")

/-- The tile list as described by the specification of `get_tile_indices`,
written from the spec's words (for comparison with the source-derived
`get_tile_indices`): row-major order; for row band `r`, `start_r` is
`r * row_tile_size` and `end_r` is `(r+1) * row_tile_size` for every band
except the final one, whose `end_r` is the image's row count; analogously per
column band. -/
def spec_tile_indices (np_img : NpImg) (row_tile_size col_tile_size : ℕ) : List TileIdx :=
  let num_row_tiles := (get_num_tiles np_img row_tile_size col_tile_size).1
  let num_col_tiles := (get_num_tiles np_img row_tile_size col_tile_size).2
  (List.range num_row_tiles).flatMap fun r =>
    (List.range num_col_tiles).map fun c =>
      { start_r := r * row_tile_size
        end_r := if r = num_row_tiles - 1 then np_img.rows else (r + 1) * row_tile_size
        start_c := c * col_tile_size
        end_c := if c = num_col_tiles - 1 then np_img.cols else (c + 1) * col_tile_size }

/-!
### Helper lemmas

Bridging the executable `Rat.ceil`-based model to Mathlib's floor/ceiling
API, and general list lemmas for the row-major `flatMap`/`map` structure of
the tile grid.
-/

/-- The executable `Rat.ceil` agrees with Mathlib's `⌈·⌉`. -/
theorem ratCeil_eq_intCeil (q : ℚ) : q.ceil = ⌈q⌉ := by
  have hdef : q.ceil = (if q.den = 1 then q.num else q.num / q.den + 1) := rfl
  by_cases h : q.den = 1
  · rw [hdef, if_pos h]
    conv_rhs => rw [← (Rat.den_eq_one_iff q).mp h]
    rw [Int.ceil_intCast]
  · rw [hdef, if_neg h]
    have hfr : Int.fract q ≠ 0 := by
      intro h0
      apply h
      have hq : q = (⌊q⌋ : ℚ) := by
        have h1 : q - ⌊q⌋ = Int.fract q := Int.self_sub_floor q
        rw [← h1] at h0
        linarith [sub_eq_zero.mp h0]
      rw [hq]
      exact Rat.den_intCast _
    have hceil : (⌈q⌉ : ℚ) = q + 1 - Int.fract q := Int.ceil_eq_add_one_sub_fract hfr
    have h2 : (⌈q⌉ : ℚ) = (⌊q⌋ : ℚ) + 1 := by
      rw [hceil, ← Int.self_sub_floor q]
      ring
    have h3 : ⌈q⌉ = ⌊q⌋ + 1 := by exact_mod_cast h2
    rw [h3, Rat.floor_def]

/-- `ceil_div` is the natural-number ceiling of the rational quotient. -/
theorem ceil_div_eq_natCeil (x t : ℕ) : ceil_div x t = ⌈(x : ℚ) / t⌉₊ := by
  unfold ceil_div
  rw [Rat.mkRat_eq_divInt, Rat.divInt_eq_div, ratCeil_eq_intCeil, Int.ceil_toNat]
  congr 1

/-- The ceiling-division count is large enough: `x ≤ ceil(x/t) * t`. -/
theorem le_ceil_div_mul (x t : ℕ) (ht : 0 < t) : x ≤ ceil_div x t * t := by
  rw [ceil_div_eq_natCeil]
  have ht' : (0 : ℚ) < (t : ℚ) := by exact_mod_cast ht
  have h1 : ((x : ℚ) / t) ≤ (⌈(x : ℚ) / t⌉₊ : ℚ) := Nat.le_ceil _
  rw [div_le_iff₀ ht'] at h1
  exact_mod_cast h1

/-- Any band strictly below the ceiling-division count starts strictly inside
`x`: `k < ceil(x/t) → k * t < x`. -/
theorem mul_lt_of_lt_ceil_div {x t k : ℕ} (ht : 0 < t) (h : k < ceil_div x t) :
    k * t < x := by
  rw [ceil_div_eq_natCeil] at h
  have ht' : (0 : ℚ) < (t : ℚ) := by exact_mod_cast ht
  have h1 : ((k : ℚ)) < (x : ℚ) / t := Nat.lt_ceil.mp (by exact_mod_cast h)
  rw [lt_div_iff₀ ht'] at h1
  exact_mod_cast h1

/-- `ceil_div` equals the usual natural-number formula `(x + t - 1) / t`. -/
theorem ceil_div_eq_add_pred_div (x t : ℕ) (ht : 0 < t) :
    ceil_div x t = (x + t - 1) / t := by
  apply Nat.le_antisymm
  · rw [ceil_div_eq_natCeil]
    apply Nat.ceil_le.mpr
    have hx : x ≤ ((x + t - 1) / t) * t := by
      have h1 := Nat.div_add_mod (x + t - 1) t
      have h2 := Nat.mod_lt (x + t - 1) ht
      have h3 : t * ((x + t - 1) / t) = ((x + t - 1) / t) * t := Nat.mul_comm _ _
      omega
    have ht' : (0 : ℚ) < (t : ℚ) := by exact_mod_cast ht
    rw [div_le_iff₀ ht']
    exact_mod_cast hx
  · have hx : x ≤ ceil_div x t * t := le_ceil_div_mul x t ht
    rw [Nat.div_le_iff_le_mul_add_pred ht]
    have h3 : t * ceil_div x t = ceil_div x t * t := Nat.mul_comm _ _
    omega

/-- Congruence for `List.flatMap` over pointwise-equal functions. -/
theorem flatMap_congr_mem {α β : Type} {l : List α} {f g : α → List β}
    (h : ∀ a ∈ l, f a = g a) : l.flatMap f = l.flatMap g := by
  induction l with
  | nil => rfl
  | cons hd tl ih =>
      simp only [List.flatMap_cons]
      rw [h hd (by simp), ih fun a ha => h a (by simp [ha])]

/-- Length of a `flatMap` whose blocks all have the same length. -/
theorem length_flatMap_const {α β : Type} {l : List α} {f : α → List β} {k : ℕ}
    (h : ∀ a ∈ l, (f a).length = k) : (l.flatMap f).length = l.length * k := by
  induction l with
  | nil => simp
  | cons hd tl ih =>
      simp only [List.flatMap_cons, List.length_append, List.length_cons]
      rw [h hd (by simp), ih fun a ha => h a (by simp [ha]), Nat.succ_mul, Nat.add_comm]

/-- Indexing into a `flatMap` whose blocks all have length `k`: entry
`i * k + j` (with `j < k`) is entry `j` of block `i`. -/
theorem getElem?_flatMap_fixed {α β : Type} (f : α → List β) (k : ℕ)
    (hf : ∀ a, (f a).length = k) :
    ∀ (l : List α) (i j : ℕ), j < k → ∀ a, l[i]? = some a →
      (l.flatMap f)[i * k + j]? = (f a)[j]?
  | [], i, j, hj, a, ha => by simp at ha
  | hd :: tl, 0, j, hj, a, ha => by
      rw [List.getElem?_cons_zero] at ha
      cases ha
      simp only [List.flatMap_cons, Nat.zero_mul, Nat.zero_add]
      exact List.getElem?_append_left (by rw [hf]; exact hj)
  | hd :: tl, i + 1, j, hj, a, ha => by
      rw [List.getElem?_cons_succ] at ha
      simp only [List.flatMap_cons]
      have hix : (i + 1) * k + j = (f hd).length + (i * k + j) := by
        rw [hf hd, Nat.succ_mul]
        omega
      rw [hix, List.getElem?_append_right (Nat.le_add_right _ _), Nat.add_sub_cancel_left]
      exact getElem?_flatMap_fixed f k hf tl i j hj a ha

/-- `get_tile_indices` written through `tileAt`. -/
theorem get_tile_indices_eq_flatMap (np_img : NpImg) (row_tile_size col_tile_size : ℕ) :
    get_tile_indices np_img row_tile_size col_tile_size =
      (List.range (get_num_tiles np_img row_tile_size col_tile_size).1).flatMap fun r =>
        (List.range (get_num_tiles np_img row_tile_size col_tile_size).2).map fun c =>
          tileAt np_img row_tile_size col_tile_size r c := rfl

/-- Membership in the tile list: exactly the tiles `tileAt r c` for
`r < num_row_tiles` and `c < num_col_tiles`. -/
theorem mem_get_tile_indices_iff {np_img : NpImg} {row_tile_size col_tile_size : ℕ}
    {t : TileIdx} :
    t ∈ get_tile_indices np_img row_tile_size col_tile_size ↔
      ∃ r, r < (get_num_tiles np_img row_tile_size col_tile_size).1 ∧
        ∃ c, c < (get_num_tiles np_img row_tile_size col_tile_size).2 ∧
          t = tileAt np_img row_tile_size col_tile_size r c := by
  rw [get_tile_indices_eq_flatMap]
  simp only [List.mem_flatMap, List.mem_map, List.mem_range]
  constructor
  · rintro ⟨r, hr, c, hc, rfl⟩
    exact ⟨r, hr, c, hc, rfl⟩
  · rintro ⟨r, hr, c, hc, rfl⟩
    exact ⟨r, hr, c, hc, rfl⟩

/-- Band membership is unique: for a pixel row `i < x` and a band index
`r < n` (`n` the ceiling-division band count), `i` lies in band `r`'s
half-open range — `[r*t, (r+1)*t)` for non-final bands, `[r*t, x)` for the
final band — exactly when `r = i / t`. -/
theorem band_mem_iff {x t n i r : ℕ} (ht : 0 < t) (hn : n = ceil_div x t)
    (hi : i < x) (hr : r < n) :
    (r * t ≤ i ∧ i < (if r < n - 1 then (r + 1) * t else x)) ↔ r = i / t := by
  constructor
  · rintro ⟨h1, h2⟩
    have hle : r ≤ i / t := (Nat.le_div_iff_mul_le ht).mpr h1
    by_cases hc : r < n - 1
    · rw [if_pos hc] at h2
      have hub : i / t < r + 1 := (Nat.div_lt_iff_lt_mul ht).mpr h2
      omega
    · have hub : i / t < n := by
        apply (Nat.div_lt_iff_lt_mul ht).mpr
        calc i < x := hi
          _ ≤ n * t := by rw [hn]; exact le_ceil_div_mul x t ht
      omega
  · intro h
    subst h
    refine ⟨Nat.div_mul_le_self i t, ?_⟩
    by_cases hc : i / t < n - 1
    · rw [if_pos hc]
      have h1 := Nat.div_add_mod i t
      have h2 := Nat.mod_lt i ht
      have h3 : (i / t + 1) * t = i / t * t + t := Nat.succ_mul _ _
      have h4 : t * (i / t) = i / t * t := Nat.mul_comm _ _
      omega
    · rw [if_neg hc]
      exact hi

/-- Expansion `(a + 1) * b = a * b + b`, phrased for `omega`. -/
theorem add_one_mul_expand (a b : ℕ) : (a + 1) * b = a * b + b := by
  rw [Nat.add_mul, Nat.one_mul]

/-- Size bounds of the tile for row band `r`, column band `c`: the height is
at most `row_tile_size`, with equality except possibly on the final row band;
analogously for the width. -/
theorem tileAt_size (np_img : NpImg) (row_tile_size col_tile_size : ℕ) (r c : ℕ)
    (hrt : 0 < row_tile_size) (hct : 0 < col_tile_size)
    (hr : r < (get_num_tiles np_img row_tile_size col_tile_size).1)
    (hc : c < (get_num_tiles np_img row_tile_size col_tile_size).2) :
    ((tileAt np_img row_tile_size col_tile_size r c).end_r -
        (tileAt np_img row_tile_size col_tile_size r c).start_r ≤ row_tile_size) ∧
    ((tileAt np_img row_tile_size col_tile_size r c).end_c -
        (tileAt np_img row_tile_size col_tile_size r c).start_c ≤ col_tile_size) ∧
    (r < (get_num_tiles np_img row_tile_size col_tile_size).1 - 1 →
      (tileAt np_img row_tile_size col_tile_size r c).end_r -
        (tileAt np_img row_tile_size col_tile_size r c).start_r = row_tile_size) ∧
    (c < (get_num_tiles np_img row_tile_size col_tile_size).2 - 1 →
      (tileAt np_img row_tile_size col_tile_size r c).end_c -
        (tileAt np_img row_tile_size col_tile_size r c).start_c = col_tile_size) := by
  set nr := (get_num_tiles np_img row_tile_size col_tile_size).1 with hnr
  set nc := (get_num_tiles np_img row_tile_size col_tile_size).2 with hnc
  have hrows : np_img.rows ≤ nr * row_tile_size := by
    rw [hnr]; exact le_ceil_div_mul _ _ hrt
  have hcols : np_img.cols ≤ nc * col_tile_size := by
    rw [hnc]; exact le_ceil_div_mul _ _ hct
  have hre : (r + 1) * row_tile_size = r * row_tile_size + row_tile_size :=
    add_one_mul_expand r row_tile_size
  have hce : (c + 1) * col_tile_size = c * col_tile_size + col_tile_size :=
    add_one_mul_expand c col_tile_size
  have hnrm : nr * row_tile_size = (nr - 1) * row_tile_size + row_tile_size := by
    have h1 : nr = (nr - 1) + 1 := by omega
    calc nr * row_tile_size = ((nr - 1) + 1) * row_tile_size := by rw [← h1]
      _ = (nr - 1) * row_tile_size + row_tile_size := add_one_mul_expand _ _
  have hncm : nc * col_tile_size = (nc - 1) * col_tile_size + col_tile_size := by
    have h1 : nc = (nc - 1) + 1 := by omega
    calc nc * col_tile_size = ((nc - 1) + 1) * col_tile_size := by rw [← h1]
      _ = (nc - 1) * col_tile_size + col_tile_size := add_one_mul_expand _ _
  unfold tileAt
  rw [← hnr, ← hnc]
  refine ⟨?_, ?_, ?_, ?_⟩
  · dsimp only
    split
    · omega
    · rename_i hsplit
      have hreq : r = nr - 1 := by omega
      have hmul : r * row_tile_size = (nr - 1) * row_tile_size := by rw [hreq]
      omega
  · dsimp only
    split
    · omega
    · rename_i hsplit
      have hceq : c = nc - 1 := by omega
      have hmul : c * col_tile_size = (nc - 1) * col_tile_size := by rw [hceq]
      omega
  · intro hlt
    dsimp only
    rw [if_pos hlt]
    omega
  · intro hlt
    dsimp only
    rw [if_pos hlt]
    omega

/-- Each iteration of the tile loop issues exactly three drawing calls. -/
theorem tileOps_length (c1 c2 c3 c4 : Color) (count : ℕ) (t : TileIdx) (p : ℚ) :
    (tileOps c1 c2 c3 c4 count t p).length = 3 := rfl

/-- Indexing the drawing calls of the tile loop: position `3 * i + j`
(`j < 3`) is call `j` of the iteration for the `i`-th tile, whose counter
value is the starting counter plus `i + 1`. -/
theorem summaryTileLoop_getElem? (c1 c2 c3 c4 : Color) (tissue_percent : TileIdx → ℚ) :
    ∀ (l : List TileIdx) (k i j : ℕ), j < 3 → ∀ t, l[i]? = some t →
      (summaryTileLoop c1 c2 c3 c4 tissue_percent k l)[3 * i + j]? =
        (tileOps c1 c2 c3 c4 (k + i + 1) t (tissue_percent t))[j]?
  | [], k, i, j, hj, t, ht => by simp at ht
  | hd :: tl, k, 0, j, hj, t, ht => by
      rw [List.getElem?_cons_zero] at ht
      cases ht
      show (tileOps c1 c2 c3 c4 (k + 1) hd (tissue_percent hd) ++
        summaryTileLoop c1 c2 c3 c4 tissue_percent (k + 1) tl)[3 * 0 + j]? = _
      rw [Nat.mul_zero, Nat.zero_add]
      exact List.getElem?_append_left (by rw [tileOps_length]; exact hj)
  | hd :: tl, k, i + 1, j, hj, t, ht => by
      rw [List.getElem?_cons_succ] at ht
      show (tileOps c1 c2 c3 c4 (k + 1) hd (tissue_percent hd) ++
        summaryTileLoop c1 c2 c3 c4 tissue_percent (k + 1) tl)[3 * (i + 1) + j]? = _
      have hix : 3 * (i + 1) + j =
          (tileOps c1 c2 c3 c4 (k + 1) hd (tissue_percent hd)).length + (3 * i + j) := by
        rw [tileOps_length]
        omega
      rw [hix, List.getElem?_append_right (Nat.le_add_right _ _), Nat.add_sub_cancel_left]
      have h := summaryTileLoop_getElem? c1 c2 c3 c4 tissue_percent tl (k + 1) i j hj t ht
      rw [h]
      have : k + 1 + i + 1 = k + (i + 1) + 1 := by omega
      rw [this]

/-- A successful run of `display_tile_summary` returns exactly the canvas
shape and the drawing calls of the tile loop started at counter 0. -/
theorem display_tile_summary_ok (np_img : NpImg) (tile_indices : List TileIdx)
    (row_tile_size col_tile_size : ℕ) (tissue_percent : TileIdx → ℚ)
    (c1 c2 c3 c4 : Color) (s : SummaryOut)
    (hs : display_tile_summary np_img tile_indices row_tile_size col_tile_size
      tissue_percent c1 c2 c3 c4 = Except.ok s) :
    s = { canvas := summary_canvas_shape np_img row_tile_size col_tile_size
          ops := summaryTileLoop c1 c2 c3 c4 tissue_percent 0 tile_indices } := by
  unfold display_tile_summary at hs
  dsimp only at hs
  split at hs
  · cases hs
    rfl
  · cases hs

/-!
### Claim theorems
-/

/-- C1, counterexample: the claim that `display_tile_summary` sizes its
canvas as `row_tile_size * num_row_tiles` by `col_tile_size * num_col_tiles`
from the passed tile-size parameters is false.  With a 1×1×3 image and tile
sizes 1 and 1, the parameter-based size would be 1×1×3, but the source
allocates with the module constants `ROW_TILE_SIZE = COL_TILE_SIZE = 128`,
giving a 128×128×3 canvas. -/
theorem summary_canvas_param_sizing_false :
    summary_canvas_shape ⟨1, 1, 3⟩ 1 1 = (128, 128, 3) ∧
    ¬ (summary_canvas_shape ⟨1, 1, 3⟩ 1 1 =
        (1 * (get_num_tiles ⟨1, 1, 3⟩ 1 1).1, 1 * (get_num_tiles ⟨1, 1, 3⟩ 1 1).2, 3)) := by
  decide

/-- C1 (amended): `display_tile_summary` allocates its summary canvas with
`ROW_TILE_SIZE * num_row_tiles` rows by `COL_TILE_SIZE * num_col_tiles`
columns, where the tile counts come from the passed tile-size parameters but
the per-tile factors are the fixed module constants; the claimed
parameter-based dimensions hold exactly when the passed tile sizes equal the
module constants (as in the repository's reference usage). -/
theorem summary_canvas_shape_amended (np_img : NpImg) (row_tile_size col_tile_size : ℕ)
    (hrt : row_tile_size = ROW_TILE_SIZE) (hct : col_tile_size = COL_TILE_SIZE) :
    summary_canvas_shape np_img row_tile_size col_tile_size =
      (row_tile_size * (get_num_tiles np_img row_tile_size col_tile_size).1,
       col_tile_size * (get_num_tiles np_img row_tile_size col_tile_size).2,
       np_img.channels) := by
  subst hrt hct
  rfl

/-- C1 witness: the amended statement at the reference usage (a 300×200×3
image, tile sizes `ROW_TILE_SIZE = COL_TILE_SIZE = 128`). -/
theorem summary_canvas_shape_amended_witness :
    summary_canvas_shape ⟨300, 200, 3⟩ 128 128 =
      (128 * (get_num_tiles ⟨300, 200, 3⟩ 128 128).1,
       128 * (get_num_tiles ⟨300, 200, 3⟩ 128 128).2, 3) :=
  summary_canvas_shape_amended ⟨300, 200, 3⟩ 128 128 rfl rfl

/-- C2: for every image with `R` rows and `C` columns and positive tile
sizes, `get_num_tiles` returns `(ceil(R / row_tile_size), ceil(C /
col_tile_size))` — stated both as the rational ceiling and as the equivalent
natural-number formula `(x + t - 1) / t`. -/
theorem get_num_tiles_eq_ceil (np_img : NpImg) (row_tile_size col_tile_size : ℕ)
    (hrt : 0 < row_tile_size) (hct : 0 < col_tile_size) :
    get_num_tiles np_img row_tile_size col_tile_size =
      (⌈(np_img.rows : ℚ) / row_tile_size⌉₊, ⌈(np_img.cols : ℚ) / col_tile_size⌉₊) ∧
    get_num_tiles np_img row_tile_size col_tile_size =
      ((np_img.rows + row_tile_size - 1) / row_tile_size,
       (np_img.cols + col_tile_size - 1) / col_tile_size) := by
  constructor
  · unfold get_num_tiles
    rw [ceil_div_eq_natCeil, ceil_div_eq_natCeil]
  · unfold get_num_tiles
    rw [ceil_div_eq_add_pred_div _ _ hrt, ceil_div_eq_add_pred_div _ _ hct]

/-- C2 witness: the spec's worked example — a 300×200 image with 128×128
tiles has `ceil(300/128) = 3` row tiles and `ceil(200/128) = 2` column
tiles. -/
theorem get_num_tiles_eq_ceil_witness :
    0 < 128 ∧
    get_num_tiles ⟨300, 200, 3⟩ 128 128 =
      ((300 + 128 - 1) / 128, (200 + 128 - 1) / 128) ∧
    get_num_tiles ⟨300, 200, 3⟩ 128 128 = (3, 2) :=
  ⟨by decide, (get_num_tiles_eq_ceil ⟨300, 200, 3⟩ 128 128 (by decide) (by decide)).2,
   by decide⟩

/-- C3: for every image and positive tile sizes, `get_tile_indices` returns
exactly `num_row_tiles * num_col_tiles` tuples, in row-major order, equal to
the list described by the spec: for row band `r`, `start_r = r *
row_tile_size` and `end_r = (r+1) * row_tile_size` for every band except the
final one, whose `end_r` is the image's row count; analogously per column
band. -/
theorem get_tile_indices_rowmajor_spec (np_img : NpImg) (row_tile_size col_tile_size : ℕ)
    (hrt : 0 < row_tile_size) (hct : 0 < col_tile_size) :
    get_tile_indices np_img row_tile_size col_tile_size =
      spec_tile_indices np_img row_tile_size col_tile_size ∧
    (get_tile_indices np_img row_tile_size col_tile_size).length =
      (get_num_tiles np_img row_tile_size col_tile_size).1 *
        (get_num_tiles np_img row_tile_size col_tile_size).2 := by
  constructor
  · rw [get_tile_indices_eq_flatMap]
    unfold spec_tile_indices
    dsimp only
    apply flatMap_congr_mem
    intro r hrm
    rw [List.mem_range] at hrm
    apply List.map_congr_left
    intro c hcm
    rw [List.mem_range] at hcm
    unfold tileAt
    dsimp only
    rw [TileIdx.mk.injEq]
    refine ⟨rfl, ?_, rfl, ?_⟩
    · split_ifs <;> omega
    · split_ifs <;> omega
  · rw [get_tile_indices_eq_flatMap]
    have hlen : ∀ r ∈ List.range (get_num_tiles np_img row_tile_size col_tile_size).1,
        ((List.range (get_num_tiles np_img row_tile_size col_tile_size).2).map fun c =>
          tileAt np_img row_tile_size col_tile_size r c).length =
          (get_num_tiles np_img row_tile_size col_tile_size).2 := by
      intro r hr
      rw [List.length_map, List.length_range]
    rw [length_flatMap_const hlen, List.length_range]

/-- C3 witness: the 300×200×3 image with 128×128 tiles — 6 tiles in
row-major order, the first being `(0, 128, 0, 128)` and the last row band
ending at 300. -/
theorem get_tile_indices_rowmajor_spec_witness :
    0 < 128 ∧
    get_tile_indices ⟨300, 200, 3⟩ 128 128 = spec_tile_indices ⟨300, 200, 3⟩ 128 128 ∧
    (get_tile_indices ⟨300, 200, 3⟩ 128 128).length = 6 ∧
    (get_tile_indices ⟨300, 200, 3⟩ 128 128)[0]? = some ⟨0, 128, 0, 128⟩ ∧
    (get_tile_indices ⟨300, 200, 3⟩ 128 128)[5]? = some ⟨256, 300, 128, 200⟩ :=
  ⟨by decide,
   (get_tile_indices_rowmajor_spec ⟨300, 200, 3⟩ 128 128 (by decide) (by decide)).1,
   by decide, by decide, by decide⟩

/-- C4: for every image and positive tile sizes, the tiles returned by
`get_tile_indices` are gap-free and non-overlapping and their half-open
row/column ranges exactly cover `[0, rows) × [0, cols)`: every pixel
coordinate of the image lies in exactly one tile's bounds. -/
theorem tiles_exact_cover (np_img : NpImg) (row_tile_size col_tile_size : ℕ)
    (hrt : 0 < row_tile_size) (hct : 0 < col_tile_size) (i j : ℕ)
    (hi : i < np_img.rows) (hj : j < np_img.cols) :
    ∃! t : TileIdx, t ∈ get_tile_indices np_img row_tile_size col_tile_size ∧
      t.start_r ≤ i ∧ i < t.end_r ∧ t.start_c ≤ j ∧ j < t.end_c := by
  have hnr : (get_num_tiles np_img row_tile_size col_tile_size).1 =
      ceil_div np_img.rows row_tile_size := rfl
  have hnc : (get_num_tiles np_img row_tile_size col_tile_size).2 =
      ceil_div np_img.cols col_tile_size := rfl
  have hrdiv : i / row_tile_size < (get_num_tiles np_img row_tile_size col_tile_size).1 := by
    rw [hnr]
    apply (Nat.div_lt_iff_lt_mul hrt).mpr
    calc i < np_img.rows := hi
      _ ≤ ceil_div np_img.rows row_tile_size * row_tile_size := le_ceil_div_mul _ _ hrt
  have hcdiv : j / col_tile_size < (get_num_tiles np_img row_tile_size col_tile_size).2 := by
    rw [hnc]
    apply (Nat.div_lt_iff_lt_mul hct).mpr
    calc j < np_img.cols := hj
      _ ≤ ceil_div np_img.cols col_tile_size * col_tile_size := le_ceil_div_mul _ _ hct
  refine ⟨tileAt np_img row_tile_size col_tile_size (i / row_tile_size) (j / col_tile_size),
    ⟨?_, ?_⟩, ?_⟩
  · exact mem_get_tile_indices_iff.mpr ⟨_, hrdiv, _, hcdiv, rfl⟩
  · have hrb := (band_mem_iff hrt hnr hi hrdiv).mpr rfl
    have hcb := (band_mem_iff hct hnc hj hcdiv).mpr rfl
    unfold tileAt
    dsimp only
    exact ⟨hrb.1, hrb.2, hcb.1, hcb.2⟩
  · rintro t' ⟨hmem, h1, h2, h3, h4⟩
    obtain ⟨r, hr, c, hc, rfl⟩ := mem_get_tile_indices_iff.mp hmem
    unfold tileAt at h1 h2 h3 h4 ⊢
    dsimp only at h1 h2 h3 h4 ⊢
    have hre : r = i / row_tile_size := (band_mem_iff hrt hnr hi hr).mp ⟨h1, h2⟩
    have hce : c = j / col_tile_size := (band_mem_iff hct hnc hj hc).mp ⟨h3, h4⟩
    rw [hre, hce]

/-- C4 witness: in the 300×200×3 image with 128×128 tiles, pixel
`(290, 130)` lies in exactly one tile. -/
theorem tiles_exact_cover_witness :
    ∃! t : TileIdx, t ∈ get_tile_indices ⟨300, 200, 3⟩ 128 128 ∧
      t.start_r ≤ 290 ∧ 290 < t.end_r ∧ t.start_c ≤ 130 ∧ 130 < t.end_c :=
  tiles_exact_cover ⟨300, 200, 3⟩ 128 128 (by decide) (by decide) 290 130
    (by decide) (by decide)

/-- C6: for every image and positive tile sizes, every tile produced by
`get_tile_indices` spans at most `row_tile_size` rows and at most
`col_tile_size` columns, and the tile of row band `r` and column band `c`
(list position `r * num_col_tiles + c`) spans exactly `row_tile_size` rows
unless `r` is the final row band, and exactly `col_tile_size` columns unless
`c` is the final column band. -/
theorem tile_size_invariant (np_img : NpImg) (row_tile_size col_tile_size : ℕ)
    (hrt : 0 < row_tile_size) (hct : 0 < col_tile_size) (r c : ℕ)
    (hr : r < (get_num_tiles np_img row_tile_size col_tile_size).1)
    (hc : c < (get_num_tiles np_img row_tile_size col_tile_size).2) :
    (∀ t ∈ get_tile_indices np_img row_tile_size col_tile_size,
      t.end_r - t.start_r ≤ row_tile_size ∧ t.end_c - t.start_c ≤ col_tile_size) ∧
    (∃ t, (get_tile_indices np_img row_tile_size col_tile_size)[r *
        (get_num_tiles np_img row_tile_size col_tile_size).2 + c]? = some t ∧
      (r < (get_num_tiles np_img row_tile_size col_tile_size).1 - 1 →
        t.end_r - t.start_r = row_tile_size) ∧
      (c < (get_num_tiles np_img row_tile_size col_tile_size).2 - 1 →
        t.end_c - t.start_c = col_tile_size)) := by
  constructor
  · intro t hmem
    obtain ⟨r', hr', c', hc', rfl⟩ := mem_get_tile_indices_iff.mp hmem
    have h := tileAt_size np_img row_tile_size col_tile_size r' c' hrt hct hr' hc'
    exact ⟨h.1, h.2.1⟩
  · refine ⟨tileAt np_img row_tile_size col_tile_size r c, ?_, ?_, ?_⟩
    · rw [get_tile_indices_eq_flatMap]
      have hgot := getElem?_flatMap_fixed
        (fun r => (List.range (get_num_tiles np_img row_tile_size col_tile_size).2).map
          fun c => tileAt np_img row_tile_size col_tile_size r c)
        (get_num_tiles np_img row_tile_size col_tile_size).2
        (fun a => by rw [List.length_map, List.length_range])
        (List.range (get_num_tiles np_img row_tile_size col_tile_size).1) r c hc r
        (List.getElem?_range hr)
      rw [hgot, List.getElem?_map, List.getElem?_range hc]
      rfl
    · intro hlt
      exact (tileAt_size np_img row_tile_size col_tile_size r c hrt hct hr hc).2.2.1 hlt
    · intro hlt
      exact (tileAt_size np_img row_tile_size col_tile_size r c hrt hct hr hc).2.2.2 hlt

/-- C6 witness: the invariant at the 300×200×3 image with 128×128 tiles, at
the non-final bands `r = 0`, `c = 0` (where both equalities apply). -/
theorem tile_size_invariant_witness :
    (∀ t ∈ get_tile_indices ⟨300, 200, 3⟩ 128 128,
      t.end_r - t.start_r ≤ 128 ∧ t.end_c - t.start_c ≤ 128) ∧
    (∃ t, (get_tile_indices ⟨300, 200, 3⟩ 128 128)[0 *
        (get_num_tiles ⟨300, 200, 3⟩ 128 128).2 + 0]? = some t ∧
      (0 < (get_num_tiles ⟨300, 200, 3⟩ 128 128).1 - 1 → t.end_r - t.start_r = 128) ∧
      (0 < (get_num_tiles ⟨300, 200, 3⟩ 128 128).2 - 1 → t.end_c - t.start_c = 128)) :=
  tile_size_invariant ⟨300, 200, 3⟩ 128 128 (by decide) (by decide) 0 0
    (by decide) (by decide)

/-- C7: for every image and positive tile sizes, every tile returned by
`get_tile_indices` satisfies `end_r ≤ rows` and `end_c ≤ cols` — including
the final row and column bands — so extracting the tile's sub-array from the
image never reads out of bounds. -/
theorem tiles_within_image_bounds (np_img : NpImg) (row_tile_size col_tile_size : ℕ)
    (hrt : 0 < row_tile_size) (hct : 0 < col_tile_size) :
    ∀ t ∈ get_tile_indices np_img row_tile_size col_tile_size,
      t.end_r ≤ np_img.rows ∧ t.end_c ≤ np_img.cols := by
  intro t hmem
  obtain ⟨r, hr, c, hc, rfl⟩ := mem_get_tile_indices_iff.mp hmem
  have hnr : (get_num_tiles np_img row_tile_size col_tile_size).1 =
      ceil_div np_img.rows row_tile_size := rfl
  have hnc : (get_num_tiles np_img row_tile_size col_tile_size).2 =
      ceil_div np_img.cols col_tile_size := rfl
  unfold tileAt
  dsimp only
  constructor
  · split
    · rename_i hlt
      have hstep : (r + 1) * row_tile_size < np_img.rows := by
        apply mul_lt_of_lt_ceil_div hrt
        omega
      omega
    · exact Nat.le_refl _
  · split
    · rename_i hlt
      have hstep : (c + 1) * col_tile_size < np_img.cols := by
        apply mul_lt_of_lt_ceil_div hct
        omega
      omega
    · exact Nat.le_refl _

/-- C7 witness: in the 300×200×3 image with 128×128 tiles, the final tile
`(256, 300, 128, 200)` (a member of the tile list) stays within the 300-row,
200-column bounds. -/
theorem tiles_within_image_bounds_witness :
    (TileIdx.mk 256 300 128 200).end_r ≤ 300 ∧ (TileIdx.mk 256 300 128 200).end_c ≤ 200 :=
  tiles_within_image_bounds ⟨300, 200, 3⟩ 128 128 (by decide) (by decide)
    ⟨256, 300, 128, 200⟩ (by decide)

/-- C8: `get_tile_indices` is a pure, deterministic function of its inputs:
two calls with identical image dimensions and tile sizes yield identical
sequences in identical order (there is no shared mutable state in the
model). -/
theorem get_tile_indices_deterministic (img1 img2 : NpImg) (rt1 ct1 rt2 ct2 : ℕ)
    (hrows : img1.rows = img2.rows) (hcols : img1.cols = img2.cols)
    (hch : img1.channels = img2.channels) (hrt : rt1 = rt2) (hct : ct1 = ct2) :
    get_tile_indices img1 rt1 ct1 = get_tile_indices img2 rt2 ct2 := by
  subst hrt hct
  cases img1 with
  | mk r1 c1 h1 =>
      cases img2 with
      | mk r2 c2 h2 =>
          have himg : NpImg.mk r1 c1 h1 = NpImg.mk r2 c2 h2 := by
            rw [NpImg.mk.injEq]
            exact ⟨hrows, hcols, hch⟩
          rw [himg]

/-- C8 witness: two calls at the reference inputs agree. -/
theorem get_tile_indices_deterministic_witness :
    get_tile_indices ⟨300, 200, 3⟩ 128 128 = get_tile_indices ⟨300, 200, 3⟩ 128 128 :=
  get_tile_indices_deterministic ⟨300, 200, 3⟩ ⟨300, 200, 3⟩ 128 128 128 128
    rfl rfl rfl rfl rfl

/-- C5: for any tissue percentage `p` in `[0, 100]` and the default
threshold of 50, the classification of `display_tile_summary` assigns
exactly one of the three buckets: `p ≥ threshold` is above-threshold,
`0 < p < threshold` is below-threshold, and `p = 0` is no-tissue; in
particular `p` equal to the threshold falls in the above-threshold bucket,
and — `classifyTile` being a total function into the three buckets — the
buckets are exhaustive and mutually exclusive. -/
theorem classify_partition (p : ℚ) (h0 : 0 ≤ p) (h100 : p ≤ 100) :
    (classifyTile p = Bucket.aboveThresh ↔ TISSUE_THRESHOLD_PERCENT ≤ p) ∧
    (classifyTile p = Bucket.belowThresh ↔ 0 < p ∧ p < TISSUE_THRESHOLD_PERCENT) ∧
    (classifyTile p = Bucket.noTissue ↔ p = 0) := by
  have hth : TISSUE_THRESHOLD_PERCENT = (50 : ℚ) := rfl
  rcases le_or_lt TISSUE_THRESHOLD_PERCENT p with hge | hlt
  · have hcl : classifyTile p = Bucket.aboveThresh := by
      unfold classifyTile
      rw [if_pos hge]
    rw [hcl]
    exact ⟨iff_of_true rfl hge,
      iff_of_false (by decide) (fun hcon => absurd hge (not_le.mpr hcon.2)),
      iff_of_false (by decide) (fun hcon => by
        rw [hcon] at hge
        rw [hth] at hge
        linarith)⟩
  · rcases eq_or_lt_of_le h0 with heq | hpos
    · have hn1 : ¬ (p ≥ TISSUE_THRESHOLD_PERCENT) := not_le.mpr hlt
      have hn2 : ¬ (p > 0 ∧ p < TISSUE_THRESHOLD_PERCENT) := by
        rintro ⟨hcon, _⟩
        rw [← heq] at hcon
        exact lt_irrefl 0 hcon
      have hcl : classifyTile p = Bucket.noTissue := by
        unfold classifyTile
        rw [if_neg hn1, if_neg hn2]
      rw [hcl]
      exact ⟨iff_of_false (by decide) hn1,
        iff_of_false (by decide) hn2,
        iff_of_true rfl heq.symm⟩
    · have hcl : classifyTile p = Bucket.belowThresh := by
        unfold classifyTile
        rw [if_neg (not_le.mpr hlt), if_pos ⟨hpos, hlt⟩]
      rw [hcl]
      exact ⟨iff_of_false (by decide) (not_le.mpr hlt),
        iff_of_true rfl ⟨hpos, hlt⟩,
        iff_of_false (by decide) (fun hcon => by
          rw [hcon] at hpos
          exact lt_irrefl 0 hpos)⟩

/-- C5 witness: the boundary percentage `p = 50` (equal to the default
threshold) is classified above-threshold, and the iff-characterization holds
there. -/
theorem classify_partition_witness :
    classifyTile 50 = Bucket.aboveThresh ∧
    ((classifyTile 50 = Bucket.aboveThresh ↔ TISSUE_THRESHOLD_PERCENT ≤ 50) ∧
     (classifyTile 50 = Bucket.belowThresh ↔ 0 < (50 : ℚ) ∧ (50 : ℚ) < TISSUE_THRESHOLD_PERCENT) ∧
     (classifyTile 50 = Bucket.noTissue ↔ (50 : ℚ) = 0)) :=
  ⟨by decide, classify_partition 50 (by decide) (by decide)⟩

/-- C9: for each tile, in emission order, `display_tile_summary` assigns a
1-based sequence number (tile `i`, 0-based, gets `count = i + 1`) and draws
a two-line label at pixel position `(start_col + 2, start_row + 2)` whose
first line is `"#<count>"` and whose second line is the tissue percentage
formatted to 2 decimal places (`"%4.2f"`) followed by `"%"`: the text call
is the third of the three drawing calls of the iteration, at position
`3*i + 2` of the emitted drawing sequence. -/
theorem display_tile_labels (np_img : NpImg) (tile_indices : List TileIdx)
    (row_tile_size col_tile_size : ℕ) (tissue_percent : TileIdx → ℚ)
    (c1 c2 c3 c4 : Color) (s : SummaryOut) (i : ℕ) (t : TileIdx)
    (hs : display_tile_summary np_img tile_indices row_tile_size col_tile_size
      tissue_percent c1 c2 c3 c4 = Except.ok s)
    (ht : tile_indices[i]? = some t) :
    s.ops[3 * i + 2]? = some (DrawOp.text (t.start_c + 2, t.start_r + 2)
      ("#" ++ toString (i + 1) ++ "\n" ++ pythonFormat42 (tissue_percent t) ++ "%") c4) := by
  have hinv := display_tile_summary_ok np_img tile_indices row_tile_size col_tile_size
    tissue_percent c1 c2 c3 c4 s hs
  rw [hinv]
  dsimp only
  rw [summaryTileLoop_getElem? c1 c2 c3 c4 tissue_percent tile_indices 0 i 2 (by decide) t ht]
  rw [Nat.zero_add]
  rfl

/-- C9 witness: a 2×2×3 image with one 2×2 tile at 50% tissue — the third
drawing call is the text `"#1\n50.00%"` at `(2, 2)`. -/
theorem display_tile_labels_witness :
    pythonFormat42 50 = "50.00" ∧
    ("#" ++ toString (0 + 1) ++ "\n" ++ pythonFormat42 50 ++ "%") = "#1\n50.00%" ∧
    (SummaryOut.mk (summary_canvas_shape ⟨2, 2, 3⟩ 2 2)
      (summaryTileLoop (0, 255, 0) (255, 255, 0) (255, 0, 0) (255, 255, 255)
        (fun _ => (50 : ℚ)) 0 [⟨0, 2, 0, 2⟩])).ops[3 * 0 + 2]? =
      some (DrawOp.text ((0 : ℕ) + 2, (0 : ℕ) + 2)
        ("#" ++ toString (0 + 1) ++ "\n" ++ pythonFormat42 50 ++ "%") (255, 255, 255)) :=
  ⟨by decide, by decide,
   display_tile_labels ⟨2, 2, 3⟩ [⟨0, 2, 0, 2⟩] 2 2 (fun _ => (50 : ℚ))
    (0, 255, 0) (255, 255, 0) (255, 0, 0) (255, 255, 255) _ 0 ⟨0, 2, 0, 2⟩
    rfl (by decide)⟩

/-- C10: when `display_tile_summary` is invoked with the module-constant
tile sizes `ROW_TILE_SIZE` and `COL_TILE_SIZE` (the repository's reference
usage), the allocated canvas — `ROW_TILE_SIZE * ceil(rows / ROW_TILE_SIZE)`
by `COL_TILE_SIZE * ceil(cols / COL_TILE_SIZE)` — is at least as large as
the source image in both dimensions, so the copy of the image into the
canvas origin is in bounds and the broadcast-overflow branch is unreachable:
the call always returns `Except.ok`. -/
theorem reference_usage_copy_in_bounds (np_img : NpImg) (tile_indices : List TileIdx)
    (tissue_percent : TileIdx → ℚ) (c1 c2 c3 c4 : Color) :
    np_img.rows ≤ (summary_canvas_shape np_img ROW_TILE_SIZE COL_TILE_SIZE).1 ∧
    np_img.cols ≤ (summary_canvas_shape np_img ROW_TILE_SIZE COL_TILE_SIZE).2.1 ∧
    display_tile_summary np_img tile_indices ROW_TILE_SIZE COL_TILE_SIZE
        tissue_percent c1 c2 c3 c4 =
      Except.ok
        { canvas := summary_canvas_shape np_img ROW_TILE_SIZE COL_TILE_SIZE
          ops := summaryTileLoop c1 c2 c3 c4 tissue_percent 0 tile_indices } := by
  have h1 : np_img.rows ≤ (summary_canvas_shape np_img ROW_TILE_SIZE COL_TILE_SIZE).1 := by
    show np_img.rows ≤ ROW_TILE_SIZE * ceil_div np_img.rows ROW_TILE_SIZE
    calc np_img.rows ≤ ceil_div np_img.rows ROW_TILE_SIZE * ROW_TILE_SIZE :=
        le_ceil_div_mul _ _ (by decide)
      _ = ROW_TILE_SIZE * ceil_div np_img.rows ROW_TILE_SIZE := Nat.mul_comm _ _
  have h2 : np_img.cols ≤ (summary_canvas_shape np_img ROW_TILE_SIZE COL_TILE_SIZE).2.1 := by
    show np_img.cols ≤ COL_TILE_SIZE * ceil_div np_img.cols COL_TILE_SIZE
    calc np_img.cols ≤ ceil_div np_img.cols COL_TILE_SIZE * COL_TILE_SIZE :=
        le_ceil_div_mul _ _ (by decide)
      _ = COL_TILE_SIZE * ceil_div np_img.cols COL_TILE_SIZE := Nat.mul_comm _ _
  refine ⟨h1, h2, ?_⟩
  unfold display_tile_summary
  dsimp only
  rw [if_pos ⟨h1, h2⟩]
